import Mathlib

/-
Shallow embedding of the PSMC-Solver repository (src/solver.py, src/tester.py).

Python integers are modelled as `Int`.  A Python dictionary is modelled as an
association list `List (Int × β)`; a dictionary access `d[i]`, which raises
`KeyError` when the key is absent, is modelled as `List.lookup` returning
`Option`, and every function whose Python original can raise is `Option`-valued
(`none` models the unhandled exception / aborted run).
-/

namespace PSMC

/-- Association-list model of a Python dict with `Int` keys. -/
abbrev Dict (β : Type) := List (Int × β)

/-- The four terminal outcomes printed by `tester.main` after the files parse. -/
inductive Verdict where
  | CostMismatch
  | Infeasible
  | NotMinimal
  | Correct
deriving DecidableEq

/-- The message `tester.main` prints for each verdict. -/
def verdictMessage : Verdict → String
  | .CostMismatch => "incorrect cost"
  | .Infeasible => "infeasible"
  | .NotMinimal => "not minimal"
  | .Correct => "everything is correct!"

/-- Outcome of `tester.read_solution` on a whitespace-split token list whose
tokens are all integers: `ok k cost sets` models a normal return,
`wrongFormat` models the printed "wrong format" followed by `exit()`, and
`crash` models an unhandled exception (the `IndexError` raised by
`int(instance[1])` when fewer than two tokens are present). -/
inductive ReadOutcome where
  | ok : Int → Int → List Int → ReadOutcome
  | wrongFormat : ReadOutcome
  | crash : ReadOutcome
deriving DecidableEq

/-- Embedding of `tester.read_solution` (tester.py lines 22-38): `k` is the
first token, the declared cost the second, the selected SetIds the rest;
`k != len(Sets)` prints "wrong format" and exits. -/
def read_solution : List Int → ReadOutcome
  | k :: cost :: rest =>
      if k = (rest.length : Int) then .ok k cost rest else .wrongFormat
  | _ => .crash

/-- Embedding of `tester.verify_costs` (tester.py lines 40-66): sums
`C_dict[i]` over the solution list and compares with the declared cost.
`none` models the `KeyError` on a SetId absent from `C_dict`. -/
def verify_costs (Sol_Set : List Int) (Sol_Costs : Int) (C_dict : Dict Int) :
    Option Bool := do
  let cost ← Sol_Set.foldlM (fun acc i => (C_dict.lookup i).map (fun ci => acc + ci)) (0 : Int)
  pure (decide (cost = Sol_Costs))

/-- Coverage counter of `tester.verify_covering_requirement` (tester.py lines
84-87): `cov[e]` is the multiplicity of `e` in the concatenation of the
membership lists `S[i]` of the selected sets, i.e. the value of the
`collections.Counter` built by the update loop.  `none` models the `KeyError`
on a SetId absent from `S`. -/
def coverage (S : Dict (List Int)) (Sol_Set : List Int) (e : Int) : Option Nat :=
  (Sol_Set.mapM (fun i => S.lookup i)).map (fun ls => ls.flatten.count e)

/-- Embedding of `tester.verify_covering_requirement` (tester.py lines 68-104):
builds the coverage counter over the selected sets, counts the keys `e` of the
counter with `cov[e] >= Re[e]`, and passes iff that count reaches `P_thresh`.
Iterating the counter keys is modelled by iterating `ls.flatten.dedup` (the count
obtained is independent of the enumeration order of the key set).  `none`
models a `KeyError`, either on `S[i]` or on `Re[e]`. -/
def verify_covering_requirement (Re : Dict Int) (Sol_Set : List Int)
    (S : Dict (List Int)) (P_thresh : Int) : Option Bool := do
  let ls ← Sol_Set.mapM (fun i => S.lookup i)
  let req ← ls.flatten.dedup.foldlM
      (fun acc e => (Re.lookup e).map
        (fun re => if re ≤ (ls.flatten.count e : Int) then acc + 1 else acc))
      (0 : Nat)
  pure (decide (P_thresh ≤ (req : Int)))

/-- Loop of `tester.verify_minimal` (tester.py lines 124-133): iterates over
the pending tail of the original solution list; for each `i` it re-runs the
covering check on the solution with the first occurrence of `i` removed
(`list.remove`), returning `False` as soon as a reduced solution is feasible. -/
def verify_minimal_go (Re : Dict Int) (Sol_Set : List Int) (S : Dict (List Int))
    (P_thresh : Int) : List Int → Option Bool
  | [] => some true
  | i :: rest => do
      let flag ← verify_covering_requirement Re (Sol_Set.erase i) S P_thresh
      if flag then some false else verify_minimal_go Re Sol_Set S P_thresh rest

/-- Embedding of `tester.verify_minimal` (tester.py lines 106-133). -/
def verify_minimal (Re : Dict Int) (Sol_Set : List Int) (S : Dict (List Int))
    (P_thresh : Int) : Option Bool :=
  verify_minimal_go Re Sol_Set S P_thresh Sol_Set

/-- Embedding of the check pipeline of `tester.main` (tester.py lines 182-202):
cost check, then covering check, then minimality check, printing the first
failure's verdict and `Correct` when all three pass.  `none` models an
unhandled `KeyError` escaping from a check. -/
def certify (Re : Dict Int) (Sol_Set : List Int) (Sol_Costs : Int)
    (C_dict : Dict Int) (S : Dict (List Int)) (P_thresh : Int) : Option Verdict := do
  let cost_flag ← verify_costs Sol_Set Sol_Costs C_dict
  if cost_flag then do
    let covering_flag ← verify_covering_requirement Re Sol_Set S P_thresh
    if covering_flag then do
      let minimal_flag ← verify_minimal Re Sol_Set S P_thresh
      if minimal_flag then pure .Correct else pure .NotMinimal
    else pure .Infeasible
  else pure .CostMismatch

/-- Parsed instance as returned by `solver.read_instance`: requirement,
cost and membership dictionaries plus the element count, set count and
threshold of the header line. -/
structure PSMCInstance where
  num_E : Int
  num_S : Int
  P : Int
  r : Dict Int
  c : Dict Int
  S : Dict (List Int)

/-- The key list `[1, 2, ..., n]` of a dictionary built by
`solver.read_instance` for a declared count `n`. -/
def intRange (n : Int) : List Int :=
  (List.range n.toNat).map (fun i => ((i + 1 : Nat) : Int))

/-- Well-formedness of a parsed instance, as guaranteed by the instance text
format: the requirement dict is keyed by `1..num_E`, the cost and membership
dicts by `1..num_S`, and every ElementId occurring in a membership list lies
in `[1, num_E]`. -/
def PSMCInstance.WF (inst : PSMCInstance) : Prop :=
  inst.r.map Prod.fst = intRange inst.num_E ∧
  inst.c.map Prod.fst = intRange inst.num_S ∧
  inst.S.map Prod.fst = intRange inst.num_S ∧
  ∀ p ∈ inst.S, ∀ e ∈ p.2, 1 ≤ e ∧ e ≤ inst.num_E

/-- Membership list of set `j` in a membership dict (empty when absent). -/
def memOf (S : Dict (List Int)) (j : Int) : List Int :=
  (S.lookup j).getD []

/-- Concatenation of the membership lists of the selected sets: the multiset
underlying the coverage counter of the covering check. -/
def joined (S : Dict (List Int)) (Sol_Set : List Int) : List Int :=
  (Sol_Set.map (memOf S)).flatten

/-- Spec-side coverage count: the multiplicity with which element `e` occurs
across the membership lists of the selected sets (absent sets contribute
nothing). -/
def specCoverage (S : Dict (List Int)) (Sol_Set : List Int) (e : Int) : Nat :=
  (Sol_Set.map (fun j => ((S.lookup j).getD []).count e)).sum

/-- Requirement of an element in a parsed instance (0 when absent). -/
def reqOf (inst : PSMCInstance) (e : Int) : Int :=
  (inst.r.lookup e).getD 0

/-- Number of coverage-counter keys whose multiplicity reaches their
requirement: the value accumulated in `req` by the key loop of
`verify_covering_requirement`. -/
def satKeyCount (inst : PSMCInstance) (Sol_Set : List Int) : Nat :=
  (joined inst.S Sol_Set).dedup.countP
    (fun e => decide (reqOf inst e ≤ ((joined inst.S Sol_Set).count e : Int)))

/-- Spec-side count of satisfied elements: the number of elements of
`1..num_E` whose coverage count reaches their requirement. -/
def specSatisfiedCount (inst : PSMCInstance) (Sol_Set : List Int) : Nat :=
  ((intRange inst.num_E).filter
    (fun e => decide (reqOf inst e ≤ (specCoverage inst.S Sol_Set e : Int)))).length

/-- Spec-side true cost of a solution: the sum of the instance costs of the
selected sets, undefined when a selected SetId is not a cost key. -/
def sumCosts (Sol_Set : List Int) (C_dict : Dict Int) : Option Int :=
  (Sol_Set.mapM (fun i => C_dict.lookup i)).map (fun l => l.sum)

/-- Decision variables of the 0-1 program built by `solver.create_Instance`:
`x j` selects set `j`, `y e` marks element `e` as satisfied. -/
inductive LVar where
  | x : Int → LVar
  | y : Int → LVar
deriving DecidableEq

/-- Linear term `coeff · var`. -/
structure LinTerm where
  coeff : Int
  var : LVar
deriving DecidableEq

/-- Linear constraint `Σ terms ≥ bound`. -/
structure LinConstraint where
  terms : List LinTerm
  bound : Int
deriving DecidableEq

/-- Category of a pulp decision variable (the `cat` argument of
`pulp.LpVariable.dict`). -/
inductive VarCat where
  | Integer
  | Continuous
deriving DecidableEq

/-- Declaration of a decision variable together with its domain, as created
by `pulp.LpVariable.dict(name, keys, lowBound, upBound, cat)`: a variable
with `lowBound = 0`, `upBound = 1` and `cat = Integer` is binary. -/
structure VarDecl where
  var : LVar
  lowBound : Int
  upBound : Int
  cat : VarCat
deriving DecidableEq

/-- The 0-1 integer program produced by `solver.create_Instance`: the two
declared variable families with their domains, the minimization objective and
the constraint list. -/
structure LPModel where
  xVars : List VarDecl
  yVars : List VarDecl
  objective : List LinTerm
  constraints : List LinConstraint
deriving DecidableEq

/-- Embedding of `solver.create_Instance` (solver.py lines 70-94): one
variable `x j` per key of `S` and one variable `y e` per element of `E`, each
declared with `lowBound=0`, `upBound=1`, `cat='Integer'` (binary), objective
`Σ c[j]·x[j]`, the threshold constraint `Σ y[e] ≥ P`, and for each element `e`
the constraint `Σ x[j] over sets containing e, minus r[e]·y[e], ≥ 0`.
`none` models a `KeyError` on `c` or `r`. -/
def create_Instance (E : List Int) (S : Dict (List Int)) (r c : Dict Int)
    (P : Int) : Option LPModel := do
  let obj ← S.mapM (fun p => (c.lookup p.1).map (fun ci => LinTerm.mk ci (LVar.x p.1)))
  let ccov ← E.mapM (fun e => (r.lookup e).map (fun re =>
    LinConstraint.mk
      (((S.filter (fun p => decide (e ∈ p.2))).map (fun p => LinTerm.mk 1 (LVar.x p.1)))
        ++ [LinTerm.mk (-re) (LVar.y e)]) 0))
  pure ⟨S.map (fun p => VarDecl.mk (LVar.x p.1) 0 1 VarCat.Integer),
    E.map (fun e => VarDecl.mk (LVar.y e) 0 1 VarCat.Integer), obj,
    ⟨E.map (fun e => LinTerm.mk 1 (LVar.y e)), P⟩ :: ccov⟩

/-- Model built directly from the specification text, over an abstract
instance given as a list of element ids, a list of set ids, and total cost,
requirement and membership functions: one binary (0-1 integer) variable
`x[j]` per set and one binary variable `y[e]` per element, objective
`minimize Σ cost[j]·x[j]`, one constraint `Σ y[e] ≥ threshold`, and per
element `e` the constraint
`Σ x[j] over j with e ∈ members[j], minus requirement[e]·y[e], ≥ 0`. -/
def specModel (elems sets : List Int) (cost req : Int → Int)
    (members : Int → List Int) (P : Int) : LPModel where
  xVars := sets.map (fun j => VarDecl.mk (LVar.x j) 0 1 VarCat.Integer)
  yVars := elems.map (fun e => VarDecl.mk (LVar.y e) 0 1 VarCat.Integer)
  objective := sets.map (fun j => LinTerm.mk (cost j) (LVar.x j))
  constraints :=
    ⟨elems.map (fun e => LinTerm.mk 1 (LVar.y e)), P⟩ ::
    elems.map (fun e =>
      ⟨((sets.filter (fun j => decide (e ∈ members j))).map
          (fun j => LinTerm.mk 1 (LVar.x j)))
        ++ [LinTerm.mk (-(req e)) (LVar.y e)], 0⟩)

/-- A variable declaration is binary: domain 0/1 and integer category. -/
def VarDecl.isBinary (v : VarDecl) : Prop :=
  v.lowBound = 0 ∧ v.upBound = 1 ∧ v.cat = VarCat.Integer

/-- Concrete instance from the specification: 3 elements, 2 sets,
threshold 2, unit requirements, costs 5 and 3, memberships {1,2} and {2,3}. -/
def inst0 : PSMCInstance where
  num_E := 3
  num_S := 2
  P := 2
  r := [(1, 1), (2, 1), (3, 1)]
  c := [(1, 5), (2, 3)]
  S := [(1, [1, 2]), (2, [2, 3])]

/-! Helper lemmas about association-list lookup and monadic list folds. -/

/-- An option that is `isSome` equals `some` of its default-read value. -/
theorem opt_eq_some_getD {β : Type} {o : Option β} (h : o.isSome) (d : β) :
    o = some (o.getD d) := by
  cases o with
  | none => cases h
  | some b => rfl

/-- Lookup succeeds exactly on the keys of the association list. -/
theorem lookup_isSome_iff {β : Type} (l : Dict β) (a : Int) :
    (l.lookup a).isSome ↔ a ∈ l.map Prod.fst := by
  induction l with
  | nil => simp [List.lookup]
  | cons p t ih =>
    obtain ⟨k, b⟩ := p
    rw [List.lookup_cons]
    split
    next heq =>
      have : a = k := by simpa using heq
      subst this
      simp
    next heq =>
      have hne : ¬ a = k := by simpa using heq
      simp [ih, hne]

/-- A successful lookup returns a pair stored in the association list. -/
theorem lookup_mem {β : Type} {l : Dict β} {a : Int} {b : β}
    (h : l.lookup a = some b) : (a, b) ∈ l := by
  induction l with
  | nil => simp [List.lookup] at h
  | cons p t ih =>
    obtain ⟨k, c⟩ := p
    rw [List.lookup_cons] at h
    split at h
    next heq =>
      cases h
      have : a = k := by simpa using heq
      subst this
      exact List.mem_cons_self _ _
    next heq =>
      exact List.mem_cons_of_mem _ (ih h)

/-- Membership in the key range `[1, 2, ..., n]`. -/
theorem mem_intRange {n a : Int} : a ∈ intRange n ↔ 1 ≤ a ∧ a ≤ n := by
  simp only [intRange, List.mem_map, List.mem_range]
  constructor
  · rintro ⟨i, hi, rfl⟩
    omega
  · rintro ⟨h1, h2⟩
    exact ⟨(a - 1).toNat, by omega, by omega⟩

/-- The key range `[1, 2, ..., n]` has no duplicates. -/
theorem nodup_intRange (n : Int) : (intRange n).Nodup := by
  unfold intRange
  refine List.Nodup.map ?_ (List.nodup_range n.toNat)
  intro i j h
  have h' : ((i + 1 : Nat) : Int) = ((j + 1 : Nat) : Int) := h
  omega

/-- Mapping an option-valued function that succeeds pointwise. -/
theorem mapM_eq_some_map {α β : Type} (f : α → Option β) (g : α → β) (l : List α)
    (h : ∀ a ∈ l, f a = some (g a)) : l.mapM f = some (l.map g) := by
  induction l with
  | nil => rfl
  | cons a t ih =>
    rw [List.mapM_cons, h a (List.mem_cons_self a t),
      ih (fun x hx => h x (List.mem_cons_of_mem a hx))]
    rfl

/-- A single failing element makes the monadic map fail. -/
theorem mapM_eq_none {α β : Type} (f : α → Option β) {l : List α} {a : α}
    (ha : a ∈ l) (hf : f a = none) : l.mapM f = none := by
  induction l with
  | nil => cases ha
  | cons b t ih =>
    rw [List.mapM_cons]
    rcases List.mem_cons.mp ha with rfl | ha'
    · rw [hf]
      rfl
    · rw [ih ha']
      cases hfb : f b <;> rfl

/-- A monadic map restricted to a sublist succeeds on a sublist of the
original result. -/
theorem mapM_sublist {α β : Type} (f : α → Option β) {l₁ l₂ : List α}
    (h : l₁.Sublist l₂) :
    ∀ {r : List β}, l₂.mapM f = some r → ∃ t, l₁.mapM f = some t ∧ t.Sublist r := by
  induction h with
  | slnil =>
    intro r hr
    simp only [List.mapM_nil, Option.some.injEq] at hr
    exact ⟨[], rfl, by simp [← hr]⟩
  | @cons l₁ l₂ a h ih =>
    intro r hr
    rw [List.mapM_cons] at hr
    cases hfa : f a with
    | none =>
      rw [hfa] at hr
      cases hr
    | some b =>
      rw [hfa] at hr
      cases hm : List.mapM f l₂ with
      | none =>
        rw [hm] at hr
        cases hr
      | some xs =>
        rw [hm] at hr
        cases hr
        obtain ⟨t, ht, hs⟩ := ih hm
        exact ⟨t, ht, List.Sublist.cons b hs⟩
  | @cons₂ l₁ l₂ a h ih =>
    intro r hr
    rw [List.mapM_cons] at hr
    cases hfa : f a with
    | none =>
      rw [hfa] at hr
      cases hr
    | some b =>
      rw [hfa] at hr
      cases hm : List.mapM f l₂ with
      | none =>
        rw [hm] at hr
        cases hr
      | some xs =>
        rw [hm] at hr
        cases hr
        obtain ⟨t, ht, hs⟩ := ih hm
        refine ⟨b :: t, ?_, List.Sublist.cons₂ b hs⟩
        rw [List.mapM_cons, hfa, ht]
        rfl

/-- Flattening preserves the sublist relation. -/
theorem flatten_sublist {α : Type} {l₁ l₂ : List (List α)} (h : l₁.Sublist l₂) :
    l₁.flatten.Sublist l₂.flatten := by
  induction h with
  | slnil => exact List.Sublist.slnil
  | cons a h ih =>
    simp only [List.flatten_cons]
    exact ih.trans (List.sublist_append_right a _)
  | cons₂ a h ih =>
    simp only [List.flatten_cons]
    exact ih.append_left a

/-- Reduction of an option bind on a present value. -/
theorem opt_bind_some {α β : Type} (a : α) (f : α → Option β) :
    ((some a : Option α) >>= f) = f a := rfl

/-- Reduction of an option map on a present value. -/
theorem opt_map_some {α β : Type} (a : α) (g : α → β) :
    (some a).map g = some (g a) := rfl

/-- The cost-accumulating fold of `verify_costs` computes the sum of the
looked-up values when the monadic map of the lookups succeeds. -/
theorem foldlM_add_eq (f : Int → Option Int) (l : List Int) :
    ∀ (r : List Int) (init : Int), l.mapM f = some r →
      l.foldlM (fun acc i => (f i).map (fun ci => acc + ci)) init
        = some (init + r.sum) := by
  induction l with
  | nil =>
    intro r init h
    simp only [List.mapM_nil, Option.pure_def, Option.some.injEq] at h
    subst h
    simp [List.foldlM_nil]
  | cons a t ih =>
    intro r init h
    rw [List.mapM_cons] at h
    cases hfa : f a with
    | none =>
      rw [hfa] at h
      cases h
    | some b =>
      rw [hfa] at h
      cases hm : t.mapM f with
      | none =>
        rw [hm] at h
        cases h
      | some xs =>
        rw [hm] at h
        cases h
        simp only [List.foldlM_cons]
        rw [hfa, opt_map_some, opt_bind_some, ih xs (init + b) hm]
        simp only [List.sum_cons, Option.some.injEq]
        ring

/-- The cost-accumulating fold of `verify_costs` fails as soon as one lookup
fails. -/
theorem foldlM_add_none (f : Int → Option Int) (l : List Int) (j : Int)
    (hf : f j = none) :
    ∀ init : Int, j ∈ l →
      l.foldlM (fun acc i => (f i).map (fun ci => acc + ci)) init = none := by
  induction l with
  | nil =>
    intro init h
    cases h
  | cons a t ih =>
    intro init hj
    simp only [List.foldlM_cons]
    rcases List.mem_cons.mp hj with rfl | hj'
    · rw [hf]
      rfl
    · cases hfa : f a with
      | none => rfl
      | some b =>
        rw [opt_map_some, opt_bind_some]
        exact ih (init + b) hj'

/-- The satisfied-element counting fold of `verify_covering_requirement`
computes a `countP` when every requirement lookup succeeds. -/
theorem foldlM_countP_eq (f : Int → Option Int) (g : Int → Int) (cnt : Int → Nat)
    (keys : List Int)
    (h : ∀ e ∈ keys, f e = some (g e)) :
    ∀ init : Nat,
      keys.foldlM (fun acc e => (f e).map
          (fun re => if re ≤ (cnt e : Int) then acc + 1 else acc)) init
        = some (init + keys.countP (fun e => decide (g e ≤ (cnt e : Int)))) := by
  induction keys with
  | nil =>
    intro init
    simp [List.foldlM_nil]
  | cons a t ih =>
    intro init
    have ih' := ih (fun x hx => h x (List.mem_cons_of_mem a hx))
    simp only [List.foldlM_cons]
    rw [h a (List.mem_cons_self a t), opt_map_some, opt_bind_some]
    by_cases hpa : g a ≤ (cnt a : Int)
    · rw [if_pos hpa, ih' (init + 1)]
      simp only [List.countP_cons, Option.some.injEq, hpa, decide_True, if_pos]
      omega
    · rw [if_neg hpa, ih' init]
      simp only [List.countP_cons, Option.some.injEq]
      have : decide (g a ≤ (cnt a : Int)) = false := decide_eq_false hpa
      rw [this]
      simp

/-- Under well-formedness, a valid SetId's membership lookup succeeds. -/
theorem lookup_S_eq {inst : PSMCInstance} (hWF : inst.WF) {j : Int}
    (hj : 1 ≤ j ∧ j ≤ inst.num_S) :
    inst.S.lookup j = some (memOf inst.S j) :=
  opt_eq_some_getD ((lookup_isSome_iff _ _).mpr
    ((hWF.2.2.1).symm ▸ mem_intRange.mpr hj)) []

/-- Under well-formedness, a valid SetId's cost lookup succeeds. -/
theorem lookup_c_eq {inst : PSMCInstance} (hWF : inst.WF) {j : Int}
    (hj : 1 ≤ j ∧ j ≤ inst.num_S) :
    inst.c.lookup j = some ((inst.c.lookup j).getD 0) :=
  opt_eq_some_getD ((lookup_isSome_iff _ _).mpr
    ((hWF.2.1).symm ▸ mem_intRange.mpr hj)) 0

/-- Under well-formedness, a valid ElementId's requirement lookup succeeds. -/
theorem lookup_r_eq {inst : PSMCInstance} (hWF : inst.WF) {e : Int}
    (he : 1 ≤ e ∧ e ≤ inst.num_E) :
    inst.r.lookup e = some (reqOf inst e) :=
  opt_eq_some_getD ((lookup_isSome_iff _ _).mpr
    ((hWF.1).symm ▸ mem_intRange.mpr he)) 0

/-- The monadic membership lookup of a solution of valid SetIds succeeds and
returns the membership lists. -/
theorem mapM_S_eq {inst : PSMCInstance} (hWF : inst.WF) {sol : List Int}
    (hsol : ∀ j ∈ sol, 1 ≤ j ∧ j ≤ inst.num_S) :
    sol.mapM (fun i => inst.S.lookup i) = some (sol.map (memOf inst.S)) :=
  mapM_eq_some_map _ _ _ (fun j hj => lookup_S_eq hWF (hsol j hj))

/-- The spec-side coverage count is the multiplicity in the flattened
membership lists of the selected sets. -/
theorem specCoverage_eq_count (S : Dict (List Int)) (sol : List Int) (e : Int) :
    specCoverage S sol e = (joined S sol).count e := by
  unfold specCoverage joined memOf
  rw [List.count_flatten, List.map_map]
  rfl

/-- Every element covered by a valid solution is an element id of the
instance. -/
theorem mem_joined_range {inst : PSMCInstance} (hWF : inst.WF) {sol : List Int}
    (hsol : ∀ j ∈ sol, 1 ≤ j ∧ j ≤ inst.num_S) {e : Int}
    (he : e ∈ joined inst.S sol) : 1 ≤ e ∧ e ≤ inst.num_E := by
  unfold joined at he
  rw [List.mem_flatten] at he
  obtain ⟨l, hl, hel⟩ := he
  rw [List.mem_map] at hl
  obtain ⟨j, hj, rfl⟩ := hl
  have hmem : (j, memOf inst.S j) ∈ inst.S := lookup_mem (lookup_S_eq hWF (hsol j hj))
  exact hWF.2.2.2 _ hmem e hel

/-- Evaluation of the covering check on a valid solution: it compares the
threshold with the number of counter keys whose coverage reaches their
requirement. -/
theorem covering_eq {inst : PSMCInstance} (hWF : inst.WF) {sol : List Int}
    (hsol : ∀ j ∈ sol, 1 ≤ j ∧ j ≤ inst.num_S) (P : Int) :
    verify_covering_requirement inst.r sol inst.S P
      = some (decide (P ≤ (satKeyCount inst sol : Int))) := by
  unfold satKeyCount
  unfold verify_covering_requirement
  rw [mapM_S_eq hWF hsol, opt_bind_some]
  have hkeys : ∀ e ∈ (sol.map (memOf inst.S)).flatten.dedup,
      inst.r.lookup e = some (reqOf inst e) :=
    fun e he => lookup_r_eq hWF (mem_joined_range hWF hsol (List.mem_dedup.mp he))
  rw [foldlM_countP_eq (fun i => inst.r.lookup i) (fun i => reqOf inst i)
        (fun i => (sol.map (memOf inst.S)).flatten.count i) _ hkeys 0, opt_bind_some]
  simp only [joined, Nat.zero_add]
  rfl

/-- Two duplicate-free lists containing the same elements satisfying a
predicate have equal predicate counts. -/
theorem countP_eq_of_nodup {p : Int → Bool} {l₁ l₂ : List Int}
    (h₁ : l₁.Nodup) (h₂ : l₂.Nodup)
    (h : ∀ e, p e = true → (e ∈ l₁ ↔ e ∈ l₂)) : l₁.countP p = l₂.countP p := by
  rw [List.countP_eq_length_filter, List.countP_eq_length_filter]
  apply List.Perm.length_eq
  rw [List.perm_ext_iff_of_nodup (List.Nodup.filter p h₁) (List.Nodup.filter p h₂)]
  intro a
  simp only [List.mem_filter]
  constructor
  · rintro ⟨ha, hp⟩
    exact ⟨(h a hp).mp ha, hp⟩
  · rintro ⟨ha, hp⟩
    exact ⟨(h a hp).mpr ha, hp⟩

/-- With positive requirements, counting satisfied counter keys equals the
spec-side satisfied-element count over `1..num_E`. -/
theorem countP_keys_eq_satisfied {inst : PSMCInstance} (hWF : inst.WF)
    {sol : List Int} (hsol : ∀ j ∈ sol, 1 ≤ j ∧ j ≤ inst.num_S)
    (hpos : ∀ p ∈ inst.r, 0 < p.2) :
    satKeyCount inst sol = specSatisfiedCount inst sol := by
  unfold satKeyCount specSatisfiedCount
  have hpred : ∀ e ∈ intRange inst.num_E,
      decide (reqOf inst e ≤ ((specCoverage inst.S sol e : Nat) : Int))
        = decide (reqOf inst e ≤ (((joined inst.S sol).count e : Nat) : Int)) := by
    intro e he
    rw [specCoverage_eq_count]
  rw [List.filter_congr hpred, ← List.countP_eq_length_filter]
  apply countP_eq_of_nodup (List.nodup_dedup _) (nodup_intRange _)
  intro e hpe
  constructor
  · intro he
    exact mem_intRange.mpr (mem_joined_range hWF hsol (List.mem_dedup.mp he))
  · intro he
    have hre := of_decide_eq_true hpe
    have hmem : (e, reqOf inst e) ∈ inst.r := lookup_mem (lookup_r_eq hWF (mem_intRange.mp he))
    have hposr : 0 < reqOf inst e := hpos _ hmem
    have hcnt : 0 < (joined inst.S sol).count e := by omega
    exact List.mem_dedup.mpr (List.count_pos_iff.mp hcnt)

/-- Full evaluation of the covering check under well-formedness, valid
SetIds and positive requirements. -/
theorem covering_eq_sat {inst : PSMCInstance} (hWF : inst.WF) {sol : List Int}
    (hsol : ∀ j ∈ sol, 1 ≤ j ∧ j ≤ inst.num_S)
    (hpos : ∀ p ∈ inst.r, 0 < p.2) (P : Int) :
    verify_covering_requirement inst.r sol inst.S P
      = some (decide (P ≤ ((specSatisfiedCount inst sol : Nat) : Int))) := by
  rw [covering_eq hWF hsol P, countP_keys_eq_satisfied hWF hsol hpos]

/-- Removing an occurrence preserves validity of the SetIds. -/
theorem erase_valid {sol : List Int} {n : Int}
    (hsol : ∀ j ∈ sol, 1 ≤ j ∧ j ≤ n) (i : Int) :
    ∀ j ∈ sol.erase i, 1 ≤ j ∧ j ≤ n :=
  fun j hj => hsol j (List.mem_of_mem_erase hj)

/-- Characterization of the minimality loop on any pending tail: it reports
non-minimality exactly when some pending removal leaves a feasible solution,
and minimality exactly when every pending removal is infeasible. -/
theorem minimal_go_eq {inst : PSMCInstance} (hWF : inst.WF) (P : Int)
    {orig : List Int} (hor : ∀ j ∈ orig, 1 ≤ j ∧ j ≤ inst.num_S) :
    ∀ rest : List Int,
      (verify_minimal_go inst.r orig inst.S P rest = some false ↔
        ∃ j ∈ rest, verify_covering_requirement inst.r (orig.erase j) inst.S P = some true)
    ∧ (verify_minimal_go inst.r orig inst.S P rest = some true ↔
        ∀ j ∈ rest, verify_covering_requirement inst.r (orig.erase j) inst.S P = some false) := by
  intro rest
  induction rest with
  | nil =>
    constructor
    · simp [verify_minimal_go]
    · simp [verify_minimal_go]
  | cons i rest ih =>
    obtain ⟨b, hb⟩ : ∃ b, verify_covering_requirement inst.r (orig.erase i) inst.S P = some b :=
      ⟨_, covering_eq hWF (erase_valid hor i) P⟩
    simp only [verify_minimal_go]
    rw [hb, opt_bind_some]
    cases b with
    | true =>
      constructor
      · constructor
        · intro hgo
          exact ⟨i, List.mem_cons_self i rest, hb⟩
        · intro hex
          simp
      · constructor
        · intro hgo
          simp at hgo
        · intro hall
          have hc := hall i (List.mem_cons_self i rest)
          rw [hb] at hc
          cases hc
    | false =>
      have hredux : (if (false : Bool) then (some false : Option Bool)
          else verify_minimal_go inst.r orig inst.S P rest)
          = verify_minimal_go inst.r orig inst.S P rest := by simp
      rw [hredux]
      constructor
      · constructor
        · intro hgo
          obtain ⟨j, hj, hcov⟩ := ih.1.mp hgo
          exact ⟨j, List.mem_cons_of_mem i hj, hcov⟩
        · rintro ⟨j, hj, hcov⟩
          rcases List.mem_cons.mp hj with rfl | hj'
          · rw [hb] at hcov
            cases hcov
          · exact ih.1.mpr ⟨j, hj', hcov⟩
      · constructor
        · intro hgo j hj
          rcases List.mem_cons.mp hj with rfl | hj'
          · exact hb
          · exact ih.2.mp hgo j hj'
        · intro hall
          exact ih.2.mpr (fun j hj => hall j (List.mem_cons_of_mem i hj))

/-- The minimality check of a valid solution never raises: it returns `true`
or `false`. -/
theorem minimal_isSome {inst : PSMCInstance} (hWF : inst.WF) {sol : List Int}
    (hsol : ∀ j ∈ sol, 1 ≤ j ∧ j ≤ inst.num_S) (P : Int) :
    (verify_minimal inst.r sol inst.S P).isSome := by
  unfold verify_minimal
  cases hgo : verify_minimal_go inst.r sol inst.S P sol with
  | some b => rfl
  | none =>
    exfalso
    have hgen : ∀ rest : List Int,
        verify_minimal_go inst.r sol inst.S P rest ≠ none := by
      intro rest
      induction rest with
      | nil =>
        simp [verify_minimal_go]
      | cons i r ih =>
        obtain ⟨b, hb⟩ : ∃ b,
            verify_covering_requirement inst.r (sol.erase i) inst.S P = some b :=
          ⟨_, covering_eq hWF (erase_valid hsol i) P⟩
        simp only [verify_minimal_go]
        rw [hb, opt_bind_some]
        cases b with
        | true => simp
        | false => simpa using ih
    exact hgen sol hgo

/-- Evaluation of the cost check when the true cost of the solution is
defined: it compares the true cost with the declared cost. -/
theorem verify_costs_eq {sol : List Int} {c : Dict Int} {t : Int}
    (h : sumCosts sol c = some t) (d : Int) :
    verify_costs sol d c = some (decide (t = d)) := by
  unfold sumCosts at h
  cases hm : sol.mapM (fun i => c.lookup i) with
  | none =>
    rw [hm] at h
    cases h
  | some r =>
    rw [hm, opt_map_some] at h
    cases h
    unfold verify_costs
    rw [foldlM_add_eq (fun i => c.lookup i) sol r 0 hm, opt_bind_some]
    simp only [zero_add]
    rfl

/-- The cost check raises when a selected SetId has no cost entry. -/
theorem verify_costs_none {sol : List Int} {c : Dict Int} {j : Int}
    (hj : j ∈ sol) (hnone : c.lookup j = none) (d : Int) :
    verify_costs sol d c = none := by
  unfold verify_costs
  rw [foldlM_add_none (fun i => c.lookup i) sol j hnone 0 hj]
  rfl

/-- The true cost of a solution of valid SetIds is defined. -/
theorem sumCosts_isSome {inst : PSMCInstance} (hWF : inst.WF) {sol : List Int}
    (hsol : ∀ j ∈ sol, 1 ≤ j ∧ j ≤ inst.num_S) :
    sumCosts sol inst.c = some ((sol.map (fun j => (inst.c.lookup j).getD 0)).sum) := by
  unfold sumCosts
  rw [mapM_eq_some_map (fun i => inst.c.lookup i) (fun j => (inst.c.lookup j).getD 0) sol
        (fun j hj => lookup_c_eq hWF (hsol j hj)), opt_map_some]

/-! Claim theorems. -/

/-- C1: for every instance and solution the certifier runs its checks in the
fixed order cost, covering, minimality, short-circuits on the first failure,
returns `CostMismatch` ("incorrect cost") exactly when the cost check returns
false, `Infeasible` ("infeasible") exactly when the cost check passes and the
covering check returns false, `NotMinimal` ("not minimal") exactly when cost
and covering pass and the minimality check returns false, and `Correct`
("everything is correct!") exactly when all three checks pass. -/
theorem certify_pipeline (Re : Dict Int) (sol : List Int) (d : Int)
    (c : Dict Int) (S : Dict (List Int)) (P : Int) :
    (certify Re sol d c S P = some .CostMismatch ↔ verify_costs sol d c = some false)
  ∧ (certify Re sol d c S P = some .Infeasible ↔
      verify_costs sol d c = some true ∧
      verify_covering_requirement Re sol S P = some false)
  ∧ (certify Re sol d c S P = some .NotMinimal ↔
      verify_costs sol d c = some true ∧
      verify_covering_requirement Re sol S P = some true ∧
      verify_minimal Re sol S P = some false)
  ∧ (certify Re sol d c S P = some .Correct ↔
      verify_costs sol d c = some true ∧
      verify_covering_requirement Re sol S P = some true ∧
      verify_minimal Re sol S P = some true)
  ∧ verdictMessage .CostMismatch = "incorrect cost"
  ∧ verdictMessage .Infeasible = "infeasible"
  ∧ verdictMessage .NotMinimal = "not minimal"
  ∧ verdictMessage .Correct = "everything is correct!" := by
  refine ⟨?_, ?_, ?_, ?_, rfl, rfl, rfl, rfl⟩ <;>
  · unfold certify
    cases hc : verify_costs sol d c with
    | none => simp
    | some cb =>
      rw [opt_bind_some]
      cases cb with
      | false => simp
      | true =>
        rw [if_pos rfl]
        cases hv : verify_covering_requirement Re sol S P with
        | none => simp
        | some vb =>
          rw [opt_bind_some]
          cases vb with
          | false => simp
          | true =>
            rw [if_pos rfl]
            cases hm : verify_minimal Re sol S P with
            | none => simp
            | some mb =>
              rw [opt_bind_some]
              cases mb <;> simp

/-- C2: on an instance with positive per-element requirements and a solution
of valid SetIds, the covering check computes each element's coverage count as
its multiplicity across the selected memberships, deems an element satisfied
iff its coverage reaches its requirement, and passes iff the number of
satisfied elements reaches the threshold; in particular exactly `threshold`
satisfied elements pass and `threshold - 1` satisfied elements fail. -/
theorem covering_spec (inst : PSMCInstance) (sol : List Int)
    (hWF : inst.WF)
    (hpos : ∀ p ∈ inst.r, 0 < p.2)
    (hsol : ∀ j ∈ sol, 1 ≤ j ∧ j ≤ inst.num_S) :
    (∀ e : Int, coverage inst.S sol e = some (specCoverage inst.S sol e))
  ∧ verify_covering_requirement inst.r sol inst.S inst.P
      = some (decide (inst.P ≤ (specSatisfiedCount inst sol : Int)))
  ∧ ((specSatisfiedCount inst sol : Int) = inst.P →
      verify_covering_requirement inst.r sol inst.S inst.P = some true)
  ∧ ((specSatisfiedCount inst sol : Int) = inst.P - 1 →
      verify_covering_requirement inst.r sol inst.S inst.P = some false) := by
  have hcov : ∀ e : Int, coverage inst.S sol e = some (specCoverage inst.S sol e) := by
    intro e
    unfold coverage
    rw [mapM_S_eq hWF hsol, opt_map_some, specCoverage_eq_count]
    rfl
  have hmain : verify_covering_requirement inst.r sol inst.S inst.P
      = some (decide (inst.P ≤ (specSatisfiedCount inst sol : Int))) := by
    rw [covering_eq hWF hsol inst.P, countP_keys_eq_satisfied hWF hsol hpos]
  refine ⟨hcov, hmain, ?_, ?_⟩
  · intro heq
    rw [hmain, heq]
    simp
  · intro heq
    rw [hmain, heq]
    have hlt : ¬ (inst.P ≤ inst.P - 1) := by omega
    simp [hlt]

/-- Witness for `covering_spec`: at the spec's concrete instance, the covering
check of the solution `[1]` evaluates to the satisfied-count comparison. -/
theorem covering_spec_witness :
    verify_covering_requirement inst0.r [1] inst0.S inst0.P
      = some (decide (inst0.P ≤ (specSatisfiedCount inst0 [1] : Int))) :=
  (covering_spec inst0 [1] ⟨by decide, by decide, by decide, by decide⟩ (by decide) (by decide)).2.1

/-- C3: on an instance and a solution of valid SetIds, the minimality check
returns false iff removing some single selected set leaves the covering check
passing, and returns true iff every single removal makes the covering check
fail. -/
theorem minimal_spec (inst : PSMCInstance) (sol : List Int)
    (hWF : inst.WF) (hsol : ∀ j ∈ sol, 1 ≤ j ∧ j ≤ inst.num_S) :
    (verify_minimal inst.r sol inst.S inst.P = some false ↔
      ∃ j ∈ sol,
        verify_covering_requirement inst.r (sol.erase j) inst.S inst.P = some true)
  ∧ (verify_minimal inst.r sol inst.S inst.P = some true ↔
      ∀ j ∈ sol,
        verify_covering_requirement inst.r (sol.erase j) inst.S inst.P = some false) :=
  minimal_go_eq hWF inst.P hsol sol

/-- Witness for `minimal_spec`: at the spec's concrete instance the solution
`[1, 2]` is not minimal because removing set 1 stays feasible. -/
theorem minimal_spec_witness :
    verify_minimal inst0.r [1, 2] inst0.S inst0.P = some false :=
  (minimal_spec inst0 [1, 2] ⟨by decide, by decide, by decide, by decide⟩ (by decide)).1.mpr
    ⟨1, by decide, by decide⟩

/-- C4: whenever the true cost of a solution is defined (all selected SetIds
are cost keys), the cost check passes iff the declared cost equals the sum of
the selected sets' costs, and fails on any other declared cost. -/
theorem costs_spec (sol : List Int) (c : Dict Int) (d t : Int)
    (h : sumCosts sol c = some t) :
    verify_costs sol d c = some (decide (t = d))
  ∧ verify_costs sol t c = some true
  ∧ (d ≠ t → verify_costs sol d c = some false) := by
  refine ⟨verify_costs_eq h d, ?_, ?_⟩
  · rw [verify_costs_eq h t]
    simp
  · intro hne
    rw [verify_costs_eq h d]
    simp [Ne.symm hne]

/-- Witness for `costs_spec`: declared cost 7 against true cost 8 fails. -/
theorem costs_spec_witness : verify_costs [1, 2] 7 inst0.c = some false :=
  (costs_spec [1, 2] inst0.c 7 8 (by decide)).2.2 (by decide)

/-- C5: the model builder is a pure function that produces, for an instance
whose lookups succeed, exactly the 0-1 integer program of the specification:
one binary (lowBound 0, upBound 1, category Integer) variable `x[j]` per set
and one binary variable `y[e]` per element, objective
`minimize Σ cost[j]·x[j]`, the constraint `Σ y[e] ≥ threshold`, and per
element `e` the constraint `Σ x[j] over sets containing e minus
requirement[e]·y[e] ≥ 0`; every variable of the produced model is binary. -/
theorem create_Instance_spec (E : List Int) (S : Dict (List Int)) (r c : Dict Int)
    (P : Int) (cf rf : Int → Int) (mf : Int → List Int)
    (hc : ∀ p ∈ S, c.lookup p.1 = some (cf p.1))
    (hr : ∀ e ∈ E, r.lookup e = some (rf e))
    (hm : ∀ p ∈ S, p.2 = mf p.1) :
    create_Instance E S r c P = some (specModel E (S.map Prod.fst) cf rf mf P)
  ∧ (∀ m : LPModel, create_Instance E S r c P = some m →
      ∀ v ∈ m.xVars ++ m.yVars, v.isBinary) := by
  have hmodel : create_Instance E S r c P
      = some (specModel E (S.map Prod.fst) cf rf mf P) := by
    unfold create_Instance
    have hobj : S.mapM (fun p => (c.lookup p.1).map (fun ci => LinTerm.mk ci (LVar.x p.1)))
        = some (S.map (fun p => LinTerm.mk (cf p.1) (LVar.x p.1))) :=
      mapM_eq_some_map _ _ _ (fun p hp => by rw [hc p hp, opt_map_some])
    have hccov : E.mapM (fun e => (r.lookup e).map (fun re =>
          LinConstraint.mk
            (((S.filter (fun p => decide (e ∈ p.2))).map (fun p => LinTerm.mk 1 (LVar.x p.1)))
              ++ [LinTerm.mk (-re) (LVar.y e)]) 0))
        = some (E.map (fun e =>
            LinConstraint.mk
              (((S.filter (fun p => decide (e ∈ p.2))).map (fun p => LinTerm.mk 1 (LVar.x p.1)))
                ++ [LinTerm.mk (-(rf e)) (LVar.y e)]) 0)) :=
      mapM_eq_some_map _ _ _ (fun e he => by rw [hr e he, opt_map_some])
    rw [hobj, opt_bind_some, hccov, opt_bind_some]
    unfold specModel
    refine congrArg some ?_
    congr 1
    · rw [List.map_map]
      rfl
    · rw [List.map_map]
      rfl
    · congr 1
      apply List.map_congr_left
      intro e he
      congr 1
      have hfil : S.filter ((fun j => decide (e ∈ mf j)) ∘ Prod.fst)
          = S.filter (fun p => decide (e ∈ p.2)) :=
        List.filter_congr (fun p hp => by
          have hp2 := hm p hp
          simp only [Function.comp]
          rw [hp2])
      rw [List.filter_map, List.map_map, hfil]
      simp [Function.comp]
  refine ⟨hmodel, ?_⟩
  intro m hmq
  rw [hmodel] at hmq
  cases hmq
  intro v hv
  rcases List.mem_append.mp hv with hx | hy
  · simp only [specModel, List.mem_map] at hx
    obtain ⟨j, hj, rfl⟩ := hx
    exact ⟨rfl, rfl, rfl⟩
  · simp only [specModel, List.mem_map] at hy
    obtain ⟨e, he, rfl⟩ := hy
    exact ⟨rfl, rfl, rfl⟩

/-- Witness for `create_Instance_spec` at the spec's concrete instance. -/
theorem create_Instance_spec_witness :
    create_Instance [1, 2, 3] inst0.S inst0.r inst0.c 2
      = some (specModel [1, 2, 3] (inst0.S.map Prod.fst)
          (fun j => if j = 1 then 5 else 3) (fun _ => 1)
          (fun j => if j = 1 then [1, 2] else [2, 3]) 2) :=
  (create_Instance_spec [1, 2, 3] inst0.S inst0.r inst0.c 2
    (fun j => if j = 1 then 5 else 3) (fun _ => 1)
    (fun j => if j = 1 then [1, 2] else [2, 3])
    (by decide) (by decide) (by decide)).1

/-- C6: a `Correct` verdict does not certify global cost-optimality: at the
spec's concrete instance the solution `[1]` with correctly declared cost 5 is
certified `Correct`, while the different solution `[2]` also passes the
covering check and its true cost 3 is strictly lower. -/
theorem correct_not_optimal :
    certify inst0.r [1] 5 inst0.c inst0.S inst0.P = some Verdict.Correct
  ∧ verify_covering_requirement inst0.r [2] inst0.S inst0.P = some true
  ∧ sumCosts [2] inst0.c = some 3
  ∧ sumCosts [1] inst0.c = some 5
  ∧ (3 : Int) < 5 := by
  refine ⟨?_, ?_, ?_, ?_, ?_⟩ <;> decide

/-- C7: coverage monotonicity: prepending a set not in the solution never
decreases any element's coverage count, and removing one occurrence of a set
never increases it (whenever the coverage counts are defined). -/
theorem coverage_monotone (S : Dict (List Int)) (sol : List Int) (j k e : Int)
    (a b c : Nat) (_hj : j ∉ sol)
    (hadd : coverage S (j :: sol) e = some a)
    (horig : coverage S sol e = some b)
    (hrem : coverage S (sol.erase k) e = some c) :
    b ≤ a ∧ c ≤ b := by
  constructor
  · unfold coverage at hadd horig
    cases hm : sol.mapM (fun i => S.lookup i) with
    | none =>
      rw [hm] at horig
      cases horig
    | some ls =>
      rw [hm, opt_map_some] at horig
      cases horig
      rw [List.mapM_cons] at hadd
      cases hj' : S.lookup j with
      | none =>
        rw [hj'] at hadd
        cases hadd
      | some lj =>
        rw [hj', hm] at hadd
        cases hadd
        simp only [List.flatten_cons, List.count_append]
        omega
  · unfold coverage at horig hrem
    cases hm : sol.mapM (fun i => S.lookup i) with
    | none =>
      rw [hm] at horig
      cases horig
    | some ls =>
      rw [hm, opt_map_some] at horig
      cases horig
      obtain ⟨ls', hls', hsub⟩ := mapM_sublist _ (List.erase_sublist k sol) hm
      rw [hls', opt_map_some] at hrem
      cases hrem
      exact (flatten_sublist hsub).count_le e

/-- Witness for `coverage_monotone` at the spec's concrete instance:
element 2 has coverage 1 under `[2]`, coverage 2 after adding set 1, and
coverage 0 after removing set 2. -/
theorem coverage_monotone_witness : (1 : Nat) ≤ 2 ∧ (0 : Nat) ≤ 1 :=
  coverage_monotone inst0.S [2] 1 2 2 2 1 0 (by decide)
    (by decide) (by decide) (by decide)

/-- C8 (amended): for every solution token list with at least two integer
tokens, reading signals the "wrong format" error iff the leading count
differs from the number of trailing SetIds, and when the leading count equals
that number it returns exactly the count, the declared cost and the id list. -/
theorem read_solution_spec (k cost : Int) (rest : List Int) :
    (read_solution (k :: cost :: rest) = ReadOutcome.wrongFormat
      ↔ ¬ k = (rest.length : Int))
  ∧ read_solution ((rest.length : Int) :: cost :: rest)
      = ReadOutcome.ok (rest.length : Int) cost rest := by
  constructor
  · simp only [read_solution]
    by_cases hk : k = (rest.length : Int)
    · rw [if_pos hk]
      simp [hk]
    · rw [if_neg hk]
      simp [hk]
  · simp [read_solution]

/-- Counterexample for C8 as stated: the single-token text "5" has a leading
count (5) that differs from the number of trailing ids (0), yet reading it
raises an `IndexError` instead of reporting "wrong format". -/
theorem read_solution_single_token :
    read_solution [5] = ReadOutcome.crash
  ∧ (read_solution [5] = ReadOutcome.wrongFormat ↔ False) := by
  constructor
  · rfl
  · simp [read_solution]

/-- C9: on a well-formed instance, when every selected SetId lies in
`[1, num_S]` the dictionary lookups of the cost and covering checks succeed
and the certifier returns a verdict; when some selected SetId is out of that
range, the cost lookup raises, so the certifier aborts with an unhandled
error (`none`) rather than reporting a format error or a `CostMismatch`
verdict. -/
theorem certify_lookup_safety (inst : PSMCInstance) (sol : List Int) (d : Int)
    (hWF : inst.WF) :
    ((∀ j ∈ sol, 1 ≤ j ∧ j ≤ inst.num_S) →
        (verify_costs sol d inst.c).isSome
      ∧ (verify_covering_requirement inst.r sol inst.S inst.P).isSome
      ∧ (certify inst.r sol d inst.c inst.S inst.P).isSome)
  ∧ (∀ j ∈ sol, ¬(1 ≤ j ∧ j ≤ inst.num_S) →
        verify_costs sol d inst.c = none
      ∧ certify inst.r sol d inst.c inst.S inst.P = none) := by
  constructor
  · intro hsol
    obtain ⟨cb, hcb⟩ : ∃ cb, verify_costs sol d inst.c = some cb :=
      ⟨_, verify_costs_eq (sumCosts_isSome hWF hsol) d⟩
    obtain ⟨vb, hvb⟩ : ∃ vb,
        verify_covering_requirement inst.r sol inst.S inst.P = some vb :=
      ⟨_, covering_eq hWF hsol inst.P⟩
    obtain ⟨mb, hmb⟩ := Option.isSome_iff_exists.mp (minimal_isSome hWF hsol inst.P)
    refine ⟨by rw [hcb]; rfl, by rw [hvb]; rfl, ?_⟩
    unfold certify
    rw [hcb, opt_bind_some]
    cases cb with
    | false => rfl
    | true =>
      rw [if_pos rfl, hvb, opt_bind_some]
      cases vb with
      | false => rfl
      | true =>
        rw [if_pos rfl, hmb, opt_bind_some]
        cases mb with
        | false => rfl
        | true => rfl
  · intro j hj hrange
    have hnone : inst.c.lookup j = none := by
      cases hc : inst.c.lookup j with
      | none => rfl
      | some v =>
        exfalso
        have hkey : j ∈ inst.c.map Prod.fst :=
          (lookup_isSome_iff _ _).mp (by rw [hc]; rfl)
        rw [hWF.2.1] at hkey
        exact hrange (mem_intRange.mp hkey)
    refine ⟨verify_costs_none hj hnone d, ?_⟩
    unfold certify
    rw [verify_costs_none hj hnone d]
    rfl

/-- Witness for `certify_lookup_safety`: at the spec's concrete instance the
valid solution `[1]` certifies without error, while the out-of-range SetId 3
makes the cost lookup and the certifier fail. -/
theorem certify_lookup_safety_witness :
    ((verify_costs [1] 5 inst0.c).isSome
      ∧ (verify_covering_requirement inst0.r [1] inst0.S inst0.P).isSome
      ∧ (certify inst0.r [1] 5 inst0.c inst0.S inst0.P).isSome)
  ∧ (verify_costs [3] 5 inst0.c = none
      ∧ certify inst0.r [3] 5 inst0.c inst0.S inst0.P = none) :=
  ⟨(certify_lookup_safety inst0 [1] 5
      ⟨by decide, by decide, by decide, by decide⟩).1 (by decide),
   (certify_lookup_safety inst0 [3] 5
      ⟨by decide, by decide, by decide, by decide⟩).2 3 (by decide) (by decide)⟩

/-- C10: the minimality check of the empty solution vacuously succeeds, so an
empty solution never receives the `NotMinimal` verdict; with declared cost 0
the empty solution is judged solely by the covering check. -/
theorem empty_solution_spec (Re : Dict Int) (c : Dict Int) (S : Dict (List Int))
    (P d : Int) :
    verify_minimal Re [] S P = some true
  ∧ certify Re [] d c S P
      = some (if 0 = d then (if P ≤ 0 then Verdict.Correct else Verdict.Infeasible)
          else Verdict.CostMismatch)
  ∧ (certify Re [] d c S P = some Verdict.NotMinimal ↔ False)
  ∧ certify Re [] 0 c S P
      = (verify_covering_requirement Re [] S P).map
          (fun b => if b then Verdict.Correct else Verdict.Infeasible) := by
  have hcost : ∀ dd : Int, verify_costs [] dd c = some (decide ((0 : Int) = dd)) :=
    fun dd => rfl
  have hcov : verify_covering_requirement Re [] S P = some (decide (P ≤ (0 : Int))) := rfl
  have hmin : verify_minimal Re [] S P = some true := rfl
  have hcert : ∀ dd : Int, certify Re [] dd c S P
      = some (if 0 = dd then (if P ≤ 0 then Verdict.Correct else Verdict.Infeasible)
          else Verdict.CostMismatch) := by
    intro dd
    unfold certify
    rw [hcost dd, hcov, hmin]
    simp only [opt_bind_some]
    by_cases hd : (0 : Int) = dd
    · subst hd
      by_cases hP : P ≤ (0 : Int)
      · simp [hP]
      · simp [hP]
    · simp [hd]
  refine ⟨hmin, hcert d, ?_, ?_⟩
  · rw [hcert d]
    by_cases hd : (0 : Int) = d
    · subst hd
      by_cases hP : P ≤ (0 : Int)
      · simp [hP]
      · simp [hP]
    · simp [hd]
  · rw [hcert 0, hcov, opt_map_some]
    by_cases hP : P ≤ (0 : Int)
    · simp [hP]
    · simp [hP]

end PSMC
